import Mathlib

/-!
Verification of `hl_ws_wallet_watch.py`: a websocket watcher that relays
trade fills for a fixed set of wallets to a notifier, deduplicating alerts
across reconnects.  The Python source is shallowly embedded below:

* `Fill` models a fill dict (all display/identity fields optional; values
  stand for their Python `str()` serialisation, `crossed` for the bool).
* `fill_key`, `fmt_fill` mirror the module-level functions of those names.
* `SeenCache` / `add_and_check` mirror the per-wallet LRU dedup cache
  (an `OrderedDict` per wallet is modelled as a `List String` in recency
  order: head = least recently accessed, last = most recently accessed).
* `process_snapshot` / `process_streaming` mirror the two fill-handling
  branches of `ws_loop`'s frame loop; `handle_frame` mirrors one frame
  iteration (returning `none` when the Python code would raise an
  exception out of the frame loop, e.g. `msg.get` on a non-dict value).
* `ws_iter` / `ws_run` mirror the outer reconnect loop of `ws_loop`:
  an `Attempt` is one iteration of `while True` (either the connect fails,
  or it succeeds, streams a list of frames and then the connection errors),
  producing the notifications sent (`tg_send` strings) and the duration
  slept before the next attempt.  Backoff durations are modelled as `ℚ`
  (Python floats; doubling and `min` are exact float operations here).
-/

structure Fill where
  coin : Option String
  side : Option String
  px : Option String
  sz : Option String
  time : Option String
  fee : Option String
  crossed : Option Bool
  tid : Option String
  hash : Option String
  oid : Option String
deriving DecidableEq

/-- Python `str()` applied to an optional field: `None` prints as "None". -/
def pyStr : Option String → String
  | some s => s
  | none => "None"

/-- Embeds `fill_key(user, f)`: prefer `tid`, then `hash`, then the
composite of time/coin/side/px/sz/oid with "None" for missing fields. -/
def fill_key (user : String) (f : Fill) : String :=
  match f.tid with
  | some tid => user ++ ":tid:" ++ tid
  | none =>
    match f.hash with
    | some hsh => user ++ ":hash:" ++ hsh
    | none =>
      user ++ ":t:" ++ pyStr f.time ++ "|" ++ pyStr f.coin ++ "|" ++ pyStr f.side ++ "|" ++
        pyStr f.px ++ "|" ++ pyStr f.sz ++ "|" ++ pyStr f.oid

/-- Embeds `fmt_fill(f)`: optional parts joined by single spaces, empty
parts dropped (Python truthiness of `coin`/`side` strings). -/
def fmt_fill (f : Fill) : String :=
  String.intercalate " "
    (((match f.time with | some t => ["[" ++ t ++ "]"] | none => []) ++
      ["fill", f.coin.getD "", f.side.getD ""] ++
      (match f.sz with | some s => ["sz=" ++ s] | none => []) ++
      (match f.px with | some p => ["px=" ++ p] | none => []) ++
      (match f.fee with | some x => ["fee=" ++ x] | none => []) ++
      (match f.crossed with | some c => [if c then "taker" else "maker"] | none => [])).filter
      (fun p => p ≠ ""))

/-- The `tg_send` text for a streaming (incremental) fill alert. -/
def streamMsg (u : String) (f : Fill) : String :=
  "HL " ++ u ++ " -> " ++ fmt_fill f

/-- The `tg_send` text for the one-time baseline alert. -/
def baselineMsg (u : String) (f : Fill) : String :=
  "HL " ++ u ++ " baseline -> " ++ fmt_fill f

/-- The `tg_send` text emitted right after connecting and subscribing. -/
def connectedMsg (n : Nat) : String :=
  "HL WS connected. Subscribed to userFills for " ++ toString n ++ " wallet(s)."

/-- The `tg_send` text emitted in the exception handler of `ws_loop`. -/
def disconnectedMsg : String :=
  "HL WS disconnected; retrying soon…"

/-- Embeds the `SeenCache` class: `maps` is the `user -> OrderedDict`
dictionary, each per-wallet `OrderedDict` modelled as a key list in
recency order (head oldest). -/
structure SeenCache where
  max_size : Nat
  maps : List (String × List String)
deriving DecidableEq

/-- Association-list read with Python-dict semantics (`setdefault` default:
a missing wallet has the empty LRU). -/
def getMap (m : List (String × List String)) (u : String) : List String :=
  match m with
  | [] => []
  | p :: rest => if p.1 = u then p.2 else getMap rest u

/-- Association-list write (in-place dict mutation). -/
def setMap (m : List (String × List String)) (u : String) (v : List String) :
    List (String × List String) :=
  match m with
  | [] => [(u, v)]
  | p :: rest => if p.1 = u then (u, v) :: rest else p :: setMap rest u v

/-- The LRU key list the cache currently holds for wallet `u`. -/
def lruOf (c : SeenCache) (u : String) : List String :=
  getMap c.maps u

/-- The new-key branch of `add_and_check`: append, then pop the front if
the size now exceeds `max_size` (Python `popitem(last=False)`). -/
def aacNew (cap : Nat) (lru : List String) (key : String) : List String :=
  if cap < (lru ++ [key]).length then (lru ++ [key]).drop 1 else lru ++ [key]

/-- Embeds `SeenCache.add_and_check(user, key)`: returns `true` iff the key
was already present (duplicate), refreshing its recency; otherwise records
it, evicting the least-recently-accessed key when over capacity. -/
def add_and_check (c : SeenCache) (user key : String) : Bool × SeenCache :=
  if key ∈ getMap c.maps user then
    (true, ⟨c.max_size, setMap c.maps user ((getMap c.maps user).erase key ++ [key])⟩)
  else
    (false, ⟨c.max_size, setMap c.maps user (aacNew c.max_size (getMap c.maps user) key)⟩)

/-- Runs a sequence of `add_and_check` calls (wallet, key), discarding the
returned booleans. -/
def runOps (c : SeenCache) : List (String × String) → SeenCache
  | [] => c
  | p :: rest => runOps (add_and_check c p.1 p.2).2 rest

lemma getMap_setMap_self (m : List (String × List String)) (u : String) (v : List String) :
    getMap (setMap m u v) u = v := by
  induction m with
  | nil => simp [setMap, getMap]
  | cons p rest ih =>
    by_cases h : p.1 = u
    · simp [setMap, getMap, h]
    · simp [setMap, getMap, h, ih]

lemma getMap_setMap_other (m : List (String × List String)) (u w : String) (v : List String)
    (h : w ≠ u) : getMap (setMap m u v) w = getMap m w := by
  have hu : ¬ (u = w) := fun hh => h hh.symm
  induction m with
  | nil => simp [setMap, getMap, hu]
  | cons p rest ih =>
    by_cases hp : p.1 = u
    · have hpw : ¬ (p.1 = w) := by rw [hp]; exact hu
      simp [setMap, getMap, hp, hu, hpw]
    · simp only [setMap, if_neg hp, getMap]
      by_cases hw : p.1 = w
      · rw [if_pos hw, if_pos hw]
      · rw [if_neg hw, if_neg hw]
        exact ih

lemma aac_max (c : SeenCache) (u k : String) :
    (add_and_check c u k).2.max_size = c.max_size := by
  unfold add_and_check
  split <;> rfl

lemma aac_hit_fst (c : SeenCache) (u k : String) (h : k ∈ lruOf c u) :
    (add_and_check c u k).1 = true := by
  unfold lruOf at h
  unfold add_and_check
  rw [if_pos h]

lemma aac_miss_fst (c : SeenCache) (u k : String) (h : k ∉ lruOf c u) :
    (add_and_check c u k).1 = false := by
  unfold lruOf at h
  unfold add_and_check
  rw [if_neg h]

lemma aac_hit_lru (c : SeenCache) (u k : String) (h : k ∈ lruOf c u) :
    lruOf (add_and_check c u k).2 u = (lruOf c u).erase k ++ [k] := by
  unfold lruOf at h
  unfold add_and_check lruOf
  rw [if_pos h]
  exact getMap_setMap_self _ _ _

lemma aac_miss_lru (c : SeenCache) (u k : String) (h : k ∉ lruOf c u) :
    lruOf (add_and_check c u k).2 u = aacNew c.max_size (lruOf c u) k := by
  unfold lruOf at h
  unfold add_and_check lruOf
  rw [if_neg h]
  exact getMap_setMap_self _ _ _

lemma aac_other_lru (c : SeenCache) (u k w : String) (h : w ≠ u) :
    lruOf (add_and_check c u k).2 w = lruOf c w := by
  unfold add_and_check lruOf
  split <;> exact getMap_setMap_other _ _ _ _ h

lemma aacNew_mem (cap : Nat) (lru : List String) (k : String) (h : 1 ≤ cap) :
    k ∈ aacNew cap lru k := by
  unfold aacNew
  split
  · rename_i hlt
    cases lru with
    | nil => simp at hlt; omega
    | cons a as => simp
  · simp

lemma aacNew_len (cap : Nat) (lru : List String) (k : String) (h : lru.length ≤ cap) :
    (aacNew cap lru k).length ≤ cap := by
  unfold aacNew
  split
  · rename_i hlt
    simp at hlt ⊢
    omega
  · rename_i hlt
    simp at hlt ⊢
    omega

lemma aacNew_full (cap : Nat) (lru : List String) (k : String)
    (h1 : lru.length = cap) (h2 : 1 ≤ cap) :
    aacNew cap lru k = lru.tail ++ [k] := by
  unfold aacNew
  rw [if_pos (by simp; omega)]
  cases lru with
  | nil => simp at h1; omega
  | cons a as => simp

lemma aac_mem (c : SeenCache) (u k : String) (h : 1 ≤ c.max_size) :
    k ∈ lruOf (add_and_check c u k).2 u := by
  by_cases hk : k ∈ lruOf c u
  · rw [aac_hit_lru c u k hk]
    simp
  · rw [aac_miss_lru c u k hk]
    exact aacNew_mem _ _ _ h

lemma aac_inv (c : SeenCache) (u k : String)
    (h : ∀ w, (lruOf c w).length ≤ c.max_size) :
    ∀ w, (lruOf (add_and_check c u k).2 w).length ≤ c.max_size := by
  intro w
  by_cases hw : w = u
  · subst hw
    by_cases hk : k ∈ lruOf c w
    · rw [aac_hit_lru c w k hk]
      have hlen := List.length_erase_of_mem hk
      have hpos : 1 ≤ (lruOf c w).length := List.length_pos.mpr (List.ne_nil_of_mem hk)
      have := h w
      simp [hlen]
      omega
    · rw [aac_miss_lru c w k hk]
      exact aacNew_len _ _ _ (h w)
  · rw [aac_other_lru c u k w hw]
    exact h w

lemma runOps_inv (ops : List (String × String)) :
    ∀ c : SeenCache, (∀ w, (lruOf c w).length ≤ c.max_size) →
      ∀ w, (lruOf (runOps c ops) w).length ≤ c.max_size := by
  induction ops with
  | nil => intro c h w; exact h w
  | cons p rest ih =>
    intro c h w
    have hstep := aac_inv c p.1 p.2 h
    have hmax := aac_max c p.1 p.2
    have := ih (add_and_check c p.1 p.2).2 (by rw [hmax]; exact hstep) w
    rw [hmax] at this
    exact this

/-- The module toggle `SEND_BASELINE_ON_SNAPSHOT = True`. -/
def SEND_BASELINE_ON_SNAPSHOT : Bool := true

/-- The mutable module state touched by the frame loop: the global
`seen_cache` and the `baseline_sent` wallet set. -/
structure ProcState where
  cache : SeenCache
  baseline_sent : List String
deriving DecidableEq

/-- The loop `for f in fills[-5:]: seen_cache.add_and_check(...)`. -/
def markSeen (c : SeenCache) (u : String) : List Fill → SeenCache
  | [] => c
  | f :: rest => markSeen (add_and_check c u (fill_key u f)).2 u rest

/-- Embeds the `is_snapshot` branch of `ws_loop`'s frame handling:
first snapshot per wallet optionally baselines the last fill and latches
`baseline_sent`; later snapshots mark the last five fills as seen. -/
def process_snapshot (st : ProcState) (u : String) (fills : List Fill) :
    ProcState × List String :=
  if SEND_BASELINE_ON_SNAPSHOT = true ∧ u ∉ st.baseline_sent then
    match fills.getLast? with
    | some last =>
        (⟨(add_and_check st.cache u (fill_key u last)).2, st.baseline_sent.insert u⟩,
         [baselineMsg u last])
    | none => (⟨st.cache, st.baseline_sent.insert u⟩, [])
  else
    (⟨markSeen st.cache u (fills.drop (fills.length - 5)), st.baseline_sent⟩, [])

/-- Embeds the incremental (`isSnapshot == false`) branch: per fill in
order, dedup-check its key and alert when novel. -/
def process_streaming (c : SeenCache) (u : String) : List Fill → SeenCache × List String
  | [] => (c, [])
  | f :: rest =>
    if (add_and_check c u (fill_key u f)).1 then
      process_streaming (add_and_check c u (fill_key u f)).2 u rest
    else
      ((process_streaming (add_and_check c u (fill_key u f)).2 u rest).1,
       streamMsg u f :: (process_streaming (add_and_check c u (fill_key u f)).2 u rest).2)

/-- The sublist of fills the evolving dedup cache reports as novel, in
arrival order (specification companion to `process_streaming`). -/
def novelFills (c : SeenCache) (u : String) : List Fill → List Fill
  | [] => []
  | f :: rest =>
    if (add_and_check c u (fill_key u f)).1 then
      novelFills (add_and_check c u (fill_key u f)).2 u rest
    else
      f :: novelFills (add_and_check c u (fill_key u f)).2 u rest

/-- The `data` value of a parsed frame: either not a dict (so every
`data.get` guard fails the `isinstance` check), or a dict carrying the
`user` / `isSnapshot` / `fills` fields with their `.get` defaults. -/
inductive JData where
  | nonDict : JData
  | dict : Option String → Bool → List Fill → JData

/-- One raw websocket frame, as seen after `json.loads`:
`malformed` = `json.loads` raised (silently skipped);
`nonDictMsg` = parsed to a non-dict value, so `msg.get("channel")` raises
an `AttributeError` that escapes the frame loop;
`parsed channel data` = parsed to a dict. -/
inductive Frame where
  | malformed : Frame
  | nonDictMsg : Frame
  | parsed : Option String → Option JData → Frame

/-- Python `str.lower()` on the (ASCII) wallet addresses involved, written
by structural recursion over the character list so proofs can evaluate
it. -/
def pyLower (s : String) : String := ⟨s.data.map Char.toLower⟩

/-- Embeds one iteration of `async for raw in ws`: `none` means the
iteration raised out of the frame loop (caught only by the outer
`except`, tearing the connection down); `some (st, msgs)` gives the new
state and the `tg_send` texts emitted. -/
def handle_frame (wallets : List String) (st : ProcState) :
    Frame → Option (ProcState × List String)
  | Frame.malformed => some (st, [])
  | Frame.nonDictMsg => none
  | Frame.parsed ch dat =>
    if ch = some "subscriptionResponse" then some (st, [])
    else if ch = some "userFills" then
      match dat with
      | some (JData.dict user isSnap fills) =>
        if pyLower (user.getD "") ∈ wallets then
          if isSnap then some (process_snapshot st (pyLower (user.getD "")) fills)
          else
            some (⟨(process_streaming st.cache (pyLower (user.getD "")) fills).1,
                   st.baseline_sent⟩,
                  (process_streaming st.cache (pyLower (user.getD "")) fills).2)
        else some (st, [])
      | _ => some (st, [])
    else some (st, [])

/-- Consumes frames in order until one raises out of the frame loop
(dropping the rest, as the connection dies there); collects all emitted
notifications. -/
def run_frames (wallets : List String) (st : ProcState) :
    List Frame → ProcState × List String
  | [] => (st, [])
  | fr :: rest =>
    match handle_frame wallets st fr with
    | none => (st, [])
    | some (st', out) =>
      ((run_frames wallets st' rest).1, out ++ (run_frames wallets st' rest).2)

/-- Immutable configuration of `ws_loop`: the lowercased `WALLETS` list,
`RECONNECT_BASE` and `RECONNECT_MAX`. -/
structure Config where
  wallets : List String
  base : ℚ
  maxB : ℚ

/-- The state the `while True` loop carries across iterations: the local
`backoff` variable plus the global process state. -/
structure LoopState where
  backoff : ℚ
  proc : ProcState

/-- One iteration of `while True`: either the connect (or subscribe)
attempt fails before streaming, or the connection opens, all wallets are
subscribed, the given frames are streamed and the connection then errors.
(In the source every successful connection eventually hits the `except`
path; `asyncio.CancelledError` shutdown is not modelled.) -/
inductive Attempt where
  | connectFail : Attempt
  | connectOk : List Frame → Attempt

/-- Embeds one iteration of `ws_loop`'s `while True`: returns the new
loop state, the `tg_send` texts emitted this iteration, and the duration
slept in the `except` handler (always the pre-update `backoff`). -/
def ws_iter (cfg : Config) (st : LoopState) : Attempt → LoopState × List String × ℚ
  | Attempt.connectFail =>
      (⟨min (st.backoff * 2) cfg.maxB, st.proc⟩, [disconnectedMsg], st.backoff)
  | Attempt.connectOk frames =>
      (⟨min (st.backoff * 2) cfg.maxB, (run_frames cfg.wallets st.proc frames).1⟩,
       connectedMsg cfg.wallets.length :: (run_frames cfg.wallets st.proc frames).2
         ++ [disconnectedMsg],
       st.backoff)

/-- Runs `ws_loop` through a finite sequence of connection attempts,
collecting all notifications and all backoff sleeps in order. -/
def ws_run (cfg : Config) (st : LoopState) : List Attempt → LoopState × List String × List ℚ
  | [] => (st, [], [])
  | a :: rest =>
    ((ws_run cfg (ws_iter cfg st a).1 rest).1,
     (ws_iter cfg st a).2.1 ++ (ws_run cfg (ws_iter cfg st a).1 rest).2.1,
     (ws_iter cfg st a).2.2 :: (ws_run cfg (ws_iter cfg st a).1 rest).2.2)

/-- The module-level initial state: `seen_cache = SeenCache(max_size=4000)`
and an empty `baseline_sent`. -/
def initProc : ProcState := ⟨⟨4000, []⟩, []⟩

/-- `ws_loop`'s entry state: `backoff = RECONNECT_BASE`. -/
def initLoop (cfg : Config) : LoopState := ⟨cfg.base, initProc⟩

/-- The backoff value after `n` consecutive failed iterations, starting
from the base. -/
def backoffSeq (cfg : Config) : Nat → ℚ
  | 0 => cfg.base
  | n + 1 => min (backoffSeq cfg n * 2) cfg.maxB

/-- A fill carrying only a `tid`. -/
def tidFill (t : String) : Fill :=
  ⟨none, none, none, none, none, none, none, some t, none, none⟩

/-- A fill with every field absent. -/
def blankFill : Fill :=
  ⟨none, none, none, none, none, none, none, none, none, none⟩

/-- Concrete configuration used in counterexamples: one watched wallet,
base backoff 1 second, cap 20 seconds (the source defaults). -/
def cfgEx : Config := ⟨["0xabc"], 1, 20⟩

/-- C3: for every wallet `w` and key `k`, the first `add_and_check` call
(while `k` is absent) returns `false` and records `k`; every call made
while `k` is present returns `true`, keeps `k` present and moves it to the
most-recent end of the wallet's LRU (refreshing its recency). -/
theorem add_and_check_first_then_dup (c : SeenCache) (w k : String)
    (h1 : k ∉ lruOf c w) (h2 : 1 ≤ c.max_size) :
    (add_and_check c w k).1 = false ∧
    k ∈ lruOf (add_and_check c w k).2 w ∧
    ∀ c' : SeenCache, k ∈ lruOf c' w →
      (add_and_check c' w k).1 = true ∧
      k ∈ lruOf (add_and_check c' w k).2 w ∧
      lruOf (add_and_check c' w k).2 w = (lruOf c' w).erase k ++ [k] := by
  refine ⟨aac_miss_fst c w k h1, aac_mem c w k h2, ?_⟩
  intro c' hk
  refine ⟨aac_hit_fst c' w k hk, ?_, aac_hit_lru c' w k hk⟩
  rw [aac_hit_lru c' w k hk]
  simp

/-- Witness for C3 at the empty cache of capacity 2: first call on
("w","k") answers `false`, records the key, and the second call answers
`true`. -/
theorem add_and_check_first_then_dup_witness :
    (add_and_check (⟨2, []⟩ : SeenCache) "w" "k").1 = false ∧
    "k" ∈ lruOf (add_and_check (⟨2, []⟩ : SeenCache) "w" "k").2 "w" ∧
    (add_and_check (add_and_check (⟨2, []⟩ : SeenCache) "w" "k").2 "w" "k").1 = true := by
  have h := add_and_check_first_then_dup (⟨2, []⟩ : SeenCache) "w" "k" (by decide) (by decide)
  exact ⟨h.1, h.2.1, (h.2.2 _ h.2.1).1⟩

/-- C4: after any sequence of `add_and_check` operations from the empty
cache each wallet holds at most `max_size` keys; inserting a new key into
a full wallet evicts exactly the least-recently-accessed key (the head of
the recency list); a membership hit counts as an access, moving the key to
the most-recent end. -/
theorem seen_cache_bounded_lru :
    (∀ (cap : Nat) (ops : List (String × String)) (u : String),
        (lruOf (runOps (⟨cap, []⟩ : SeenCache) ops) u).length ≤ cap) ∧
    (∀ (c : SeenCache) (u k : String), k ∉ lruOf c u →
        (lruOf c u).length = c.max_size → 1 ≤ c.max_size →
        lruOf (add_and_check c u k).2 u = (lruOf c u).tail ++ [k]) ∧
    (∀ (c : SeenCache) (u k : String), k ∈ lruOf c u →
        lruOf (add_and_check c u k).2 u = (lruOf c u).erase k ++ [k]) := by
  refine ⟨?_, ?_, ?_⟩
  · intro cap ops u
    exact runOps_inv ops ⟨cap, []⟩ (fun w => by simp [lruOf, getMap]) u
  · intro c u k hk hfull hcap
    rw [aac_miss_lru c u k hk, aacNew_full c.max_size (lruOf c u) k hfull hcap]
  · intro c u k hk
    exact aac_hit_lru c u k hk

/-- Witness for C4 at capacity 1: two inserts stay within the bound, a
full wallet evicts its oldest key on a new insert, and a hit refreshes. -/
theorem seen_cache_bounded_lru_witness :
    (lruOf (runOps (⟨1, []⟩ : SeenCache) [("w", "a"), ("w", "b")]) "w").length ≤ 1 ∧
    lruOf (add_and_check (⟨1, [("w", ["a"])]⟩ : SeenCache) "w" "b").2 "w" = ["b"] ∧
    lruOf (add_and_check (⟨1, [("w", ["a"])]⟩ : SeenCache) "w" "a").2 "w" = ["a"] := by
  have h := seen_cache_bounded_lru
  refine ⟨h.1 1 [("w", "a"), ("w", "b")] "w", ?_, ?_⟩
  · exact h.2.1 (⟨1, [("w", ["a"])]⟩ : SeenCache) "w" "b" (by decide) (by decide) (by decide)
  · exact h.2.2 (⟨1, [("w", ["a"])]⟩ : SeenCache) "w" "a" (by decide)

/-- C5: `fill_key` is total and deterministic with precedence
tid > hash > composite: same wallet and same `tid` (or, lacking tid, same
`hash`) give the same key, and with both absent the key is the composite
of time/coin/side/px/sz/oid with the fixed placeholder "None" for missing
fields. -/
theorem fill_key_spec :
    (∀ (u : String) (f : Fill) (t : String), f.tid = some t →
        fill_key u f = u ++ ":tid:" ++ t) ∧
    (∀ (u : String) (f : Fill) (s : String), f.tid = none → f.hash = some s →
        fill_key u f = u ++ ":hash:" ++ s) ∧
    (∀ (u : String) (f1 f2 : Fill) (t : String), f1.tid = some t → f2.tid = some t →
        fill_key u f1 = fill_key u f2) ∧
    (∀ (u : String) (f1 f2 : Fill) (s : String), f1.tid = none → f2.tid = none →
        f1.hash = some s → f2.hash = some s → fill_key u f1 = fill_key u f2) ∧
    (∀ (u : String) (f : Fill), f.tid = none → f.hash = none →
        fill_key u f = u ++ ":t:" ++ pyStr f.time ++ "|" ++ pyStr f.coin ++ "|" ++
          pyStr f.side ++ "|" ++ pyStr f.px ++ "|" ++ pyStr f.sz ++ "|" ++ pyStr f.oid) ∧
    pyStr none = "None" := by
  refine ⟨?_, ?_, ?_, ?_, ?_, rfl⟩
  · intro u f t ht
    simp [fill_key, ht]
  · intro u f s ht hs
    simp [fill_key, ht, hs]
  · intro u f1 f2 t ht1 ht2
    simp [fill_key, ht1, ht2]
  · intro u f1 f2 s ht1 ht2 hs1 hs2
    simp [fill_key, ht1, ht2, hs1, hs2]
  · intro u f ht hs
    simp [fill_key, ht, hs]

/-- Witness for C5: a tid-bearing fill keys on the tid; the all-absent
fill keys on the composite of six "None" placeholders. -/
theorem fill_key_spec_witness :
    fill_key "w" (tidFill "3") = "w" ++ ":tid:" ++ "3" ∧
    fill_key "w" blankFill = "w" ++ ":t:" ++ "None" ++ "|" ++ "None" ++ "|" ++ "None" ++ "|" ++
      "None" ++ "|" ++ "None" ++ "|" ++ "None" := by
  have h := fill_key_spec
  exact ⟨h.1 "w" (tidFill "3") "3" rfl, h.2.2.2.2.1 "w" blankFill rfl rfl⟩

/-- C6: processing an incremental update emits exactly one notification
per fill the evolving dedup cache reports as novel, in arrival order; in
particular the batch [C(tid=3), D(tid=4), C(tid=3)] from a fresh cache
yields exactly the two notifications C then D (the in-batch duplicate is
suppressed). -/
theorem streaming_novel_in_order :
    (∀ (c : SeenCache) (u : String) (fills : List Fill),
        (process_streaming c u fills).2 = (novelFills c u fills).map (streamMsg u)) ∧
    (process_streaming (⟨4000, []⟩ : SeenCache) "0xabc"
        [tidFill "3", tidFill "4", tidFill "3"]).2 =
      [streamMsg "0xabc" (tidFill "3"), streamMsg "0xabc" (tidFill "4")] := by
  constructor
  · intro c u fills
    induction fills generalizing c with
    | nil => simp [process_streaming, novelFills]
    | cons f rest ih =>
      by_cases hd : (add_and_check c u (fill_key u f)).1 = true
      · simp [process_streaming, novelFills, hd, ih]
      · simp [process_streaming, novelFills, hd, ih]
  · rfl

/-- C7: on a wallet's first snapshot with at least one fill, exactly one
baseline notification (describing the last fill) is emitted, that fill's
key is recorded so a following incremental update carrying it yields no
notification; the baseline latch is set for any first snapshot (fills or
not), and once set no snapshot ever emits a notification again. -/
theorem first_snapshot_baseline (st : ProcState) (u : String) (fills : List Fill) (last : Fill)
    (h1 : u ∉ st.baseline_sent) (h2 : 1 ≤ st.cache.max_size)
    (h3 : fills.getLast? = some last) :
    (process_snapshot st u fills).2 = [baselineMsg u last] ∧
    fill_key u last ∈ lruOf (process_snapshot st u fills).1.cache u ∧
    u ∈ (process_snapshot st u fills).1.baseline_sent ∧
    (process_streaming (process_snapshot st u fills).1.cache u [last]).2 = [] ∧
    (∀ (st2 : ProcState) (fills2 : List Fill), u ∈ st2.baseline_sent →
        (process_snapshot st2 u fills2).2 = []) ∧
    (∀ (st3 : ProcState) (fills3 : List Fill), u ∉ st3.baseline_sent →
        u ∈ (process_snapshot st3 u fills3).1.baseline_sent) := by
  have hps : process_snapshot st u fills =
      (⟨(add_and_check st.cache u (fill_key u last)).2, st.baseline_sent.insert u⟩,
       [baselineMsg u last]) := by
    unfold process_snapshot
    rw [if_pos ⟨rfl, h1⟩, h3]
  have hmem : fill_key u last ∈ lruOf (add_and_check st.cache u (fill_key u last)).2 u :=
    aac_mem st.cache u (fill_key u last) h2
  refine ⟨by rw [hps], ?_, ?_, ?_, ?_, ?_⟩
  · rw [hps]
    exact hmem
  · rw [hps]
    exact List.mem_insert_self u st.baseline_sent
  · rw [hps]
    have hfst := aac_hit_fst _ u (fill_key u last) hmem
    simp [process_streaming, hfst]
  · intro st2 fills2 hmem2
    unfold process_snapshot
    rw [if_neg (by simp [hmem2])]
  · intro st3 fills3 hmem3
    unfold process_snapshot
    rw [if_pos ⟨rfl, hmem3⟩]
    cases hl : fills3.getLast? with
    | none => exact List.mem_insert_self u st3.baseline_sent
    | some x => exact List.mem_insert_self u st3.baseline_sent

/-- Witness for C7: first snapshot [A(tid=1), B(tid=2)] for wallet 0xabc
emits exactly the baseline for B, and replaying B incrementally right
after yields no notification. -/
theorem first_snapshot_baseline_witness :
    (process_snapshot initProc "0xabc" [tidFill "1", tidFill "2"]).2 =
      [baselineMsg "0xabc" (tidFill "2")] ∧
    (process_streaming (process_snapshot initProc "0xabc" [tidFill "1", tidFill "2"]).1.cache
        "0xabc" [tidFill "2"]).2 = [] := by
  have h := first_snapshot_baseline initProc "0xabc" [tidFill "1", tidFill "2"] (tidFill "2")
      (by decide) (by decide) rfl
  exact ⟨h.1, h.2.2.2.1⟩

/-- C10: on a wallet's first snapshot only the last fill's key is written
to the dedup cache: the resulting cache is exactly the input cache after
one `add_and_check` of the last fill's key; starting from an empty wallet
LRU the wallet holds exactly that one key afterwards, and any fill with a
different key is then still reported as novel by an incremental update. -/
theorem snapshot_records_only_last (st : ProcState) (u : String) (fills : List Fill)
    (last : Fill) (h1 : u ∉ st.baseline_sent) (h3 : fills.getLast? = some last) :
    (process_snapshot st u fills).1.cache = (add_and_check st.cache u (fill_key u last)).2 ∧
    (lruOf st.cache u = [] → 1 ≤ st.cache.max_size →
        lruOf (process_snapshot st u fills).1.cache u = [fill_key u last]) ∧
    (∀ g : Fill, lruOf st.cache u = [] → 1 ≤ st.cache.max_size →
        fill_key u g ≠ fill_key u last →
        (process_streaming (process_snapshot st u fills).1.cache u [g]).2 =
          [streamMsg u g]) := by
  have hps : (process_snapshot st u fills).1.cache =
      (add_and_check st.cache u (fill_key u last)).2 := by
    unfold process_snapshot
    rw [if_pos ⟨rfl, h1⟩, h3]
  have hlru : lruOf st.cache u = [] → 1 ≤ st.cache.max_size →
      lruOf (add_and_check st.cache u (fill_key u last)).2 u = [fill_key u last] := by
    intro he hc
    rw [aac_miss_lru st.cache u _ (by rw [he]; simp), he]
    unfold aacNew
    rw [if_neg (by simp; omega)]
    simp
  refine ⟨hps, ?_, ?_⟩
  · intro he hc
    rw [hps]
    exact hlru he hc
  · intro g he hc hne
    rw [hps]
    have h4 : fill_key u g ∉ lruOf (add_and_check st.cache u (fill_key u last)).2 u := by
      rw [hlru he hc]
      simpa using hne
    have hfst := aac_miss_fst _ u _ h4
    simp [process_streaming, hfst]

/-- Witness for C10: after the first snapshot [A(tid=1), B(tid=2)] only
B's key is cached, and replaying A incrementally still alerts. -/
theorem snapshot_records_only_last_witness :
    lruOf (process_snapshot initProc "0xabc" [tidFill "1", tidFill "2"]).1.cache "0xabc" =
      [fill_key "0xabc" (tidFill "2")] ∧
    (process_streaming (process_snapshot initProc "0xabc" [tidFill "1", tidFill "2"]).1.cache
        "0xabc" [tidFill "1"]).2 = [streamMsg "0xabc" (tidFill "1")] := by
  have h := snapshot_records_only_last initProc "0xabc" [tidFill "1", tidFill "2"]
      (tidFill "2") (by decide) rfl
  exact ⟨h.2.1 rfl (by decide), h.2.2 (tidFill "1") rfl (by decide) (by decide)⟩

lemma ws_run_sleeps_cons (cfg : Config) (st : LoopState) (a : Attempt) (rest : List Attempt) :
    (ws_run cfg st (a :: rest)).2.2 =
      (ws_iter cfg st a).2.2 :: (ws_run cfg (ws_iter cfg st a).1 rest).2.2 := rfl

lemma ws_run_fail_sleeps (cfg : Config) :
    ∀ (n k : Nat) (st : LoopState), st.backoff = backoffSeq cfg k →
      (ws_run cfg st (List.replicate n Attempt.connectFail)).2.2 =
        (List.range n).map (fun i => backoffSeq cfg (k + i)) := by
  intro n
  induction n with
  | zero =>
    intro k st h
    simp [ws_run]
  | succ m ih =>
    intro k st h
    have hstep : (ws_iter cfg st Attempt.connectFail).1.backoff = backoffSeq cfg (k + 1) := by
      simp [ws_iter, backoffSeq, h]
    have ihh := ih (k + 1) (ws_iter cfg st Attempt.connectFail).1 hstep
    have hsl : (ws_iter cfg st Attempt.connectFail).2.2 = backoffSeq cfg k := h
    rw [List.replicate_succ, ws_run_sleeps_cons, ihh, hsl]
    have hf : (fun i => backoffSeq cfg (k + 1 + i)) =
        ((fun i => backoffSeq cfg (k + i)) ∘ Nat.succ) := by
      funext i
      simp only [Function.comp_apply]
      congr 1
      omega
    rw [List.range_succ_eq_map, List.map_cons, List.map_map, hf]
    simp

/-- C8: under consecutive connection failures the loop sleeps the current
backoff and then doubles it up to the cap: the sleep sequence from base B
is exactly `backoffSeq`, which satisfies
`backoffSeq (n+1) = min (2 * backoffSeq n) M`. -/
theorem backoff_failure_sequence (cfg : Config) (n : Nat) :
    (ws_run cfg (initLoop cfg) (List.replicate n Attempt.connectFail)).2.2 =
      (List.range n).map (backoffSeq cfg) ∧
    ∀ k, backoffSeq cfg (k + 1) = min (backoffSeq cfg k * 2) cfg.maxB := by
  constructor
  · have h := ws_run_fail_sleeps cfg n 0 (initLoop cfg) rfl
    simpa using h
  · intro k
    rfl

/-- C2 fails on the code: with base 1 and cap 20, the trace
fail / success / fail sleeps 1, 2 and 4 seconds; a reset of the backoff on
the successful Streaming entry would instead sleep 1, 1 and 2 seconds, so
the failure following the successful reconnect does not sleep the base. -/
theorem backoff_reset_counterex :
    (ws_run cfgEx (initLoop cfgEx)
        [Attempt.connectFail, Attempt.connectOk [], Attempt.connectFail]).2.2 =
      [1, 2, 4] ∧
    (ws_run cfgEx (initLoop cfgEx)
        [Attempt.connectFail, Attempt.connectOk [], Attempt.connectFail]).2.2 ≠
      [1, 1, 2] := by
  have hrun : (ws_run cfgEx (initLoop cfgEx)
      [Attempt.connectFail, Attempt.connectOk [], Attempt.connectFail]).2.2 = [1, 2, 4] := by
    norm_num [ws_run, ws_iter, cfgEx, initLoop, min_def]
  refine ⟨hrun, ?_⟩
  rw [hrun]
  norm_num

/-- C2 amended: the backoff is never reset after `ws_loop` starts — every
iteration, failed or successfully streaming, sleeps the current backoff in
its `except` handler and then sets it to `min (backoff * 2) max`. -/
theorem backoff_never_reset (cfg : Config) (st : LoopState) (a : Attempt) :
    (ws_iter cfg st a).1.backoff = min (st.backoff * 2) cfg.maxB ∧
    (ws_iter cfg st a).2.2 = st.backoff := by
  cases a <;> exact ⟨rfl, rfl⟩

/-- C1 fails on the code: two successful connections in one process each
emit the "connected" notification, so its count in the trace is 2, not at
most 1. -/
theorem connected_not_once_cex :
    ¬ (((ws_run cfgEx (initLoop cfgEx)
          [Attempt.connectOk [], Attempt.connectOk []]).2.1.filter
        (fun m => m == connectedMsg 1)).length ≤ 1) := by
  decide

/-- C1 amended: the "connected" notification is emitted on every
successful entry into Streaming — it is the first `tg_send` of every
successfully connected iteration, with no once-per-process guard. -/
theorem connected_every_streaming_entry (cfg : Config) (st : LoopState)
    (frames : List Frame) :
    ((ws_iter cfg st (Attempt.connectOk frames)).2.1).head? =
      some (connectedMsg cfg.wallets.length) := rfl

/-- An incremental userFills frame for the watched wallet carrying one
novel fill; used to observe whether frame consumption continues. -/
def novelFrame : Frame :=
  Frame.parsed (some "userFills") (some (JData.dict (some "0xabc") false [tidFill "9"]))

/-- C9 fails on the code: a frame whose JSON parses to a non-dict value
("unexpected shape") is not dropped silently — `msg.get` raises out of the
frame loop, so consumption stops: a following frame that would alert is
never processed, while without the bad frame it does alert. -/
theorem nondict_frame_raises_cex :
    run_frames ["0xabc"] initProc [Frame.nonDictMsg, novelFrame] = (initProc, []) ∧
    (run_frames ["0xabc"] initProc [novelFrame]).2 ≠ [] := by
  constructor
  · rfl
  · decide

/-- C9 amended: frames that fail JSON parsing, subscriptionResponse acks,
unrecognised channels, userFills frames whose data is absent or not a
dict, and userFills updates for unwatched wallets are all dropped silently
(state unchanged, nothing emitted, consumption continues); but a frame
parsing to a non-dict value raises out of the frame loop, ending
consumption for that connection, instead of being dropped. -/
theorem ignored_frames_amended (W : List String) (st : ProcState) :
    handle_frame W st Frame.malformed = some (st, []) ∧
    (∀ d, handle_frame W st (Frame.parsed (some "subscriptionResponse") d) = some (st, [])) ∧
    (∀ ch d, ch ≠ some "userFills" → ch ≠ some "subscriptionResponse" →
        handle_frame W st (Frame.parsed ch d) = some (st, [])) ∧
    handle_frame W st (Frame.parsed (some "userFills") none) = some (st, []) ∧
    handle_frame W st (Frame.parsed (some "userFills") (some JData.nonDict)) = some (st, []) ∧
    (∀ (user : Option String) (snap : Bool) (fills : List Fill),
        pyLower (user.getD "") ∉ W →
        handle_frame W st (Frame.parsed (some "userFills")
          (some (JData.dict user snap fills))) = some (st, [])) ∧
    (∀ fr rest, handle_frame W st fr = some (st, []) →
        run_frames W st (fr :: rest) = run_frames W st rest) ∧
    handle_frame W st Frame.nonDictMsg = none ∧
    (∀ rest, run_frames W st (Frame.nonDictMsg :: rest) = (st, [])) := by
  refine ⟨rfl, fun d => rfl, ?_, rfl, rfl, ?_, ?_, rfl, fun rest => rfl⟩
  · intro ch d h1 h2
    simp [handle_frame, h1, h2]
  · intro user snap fills hmem
    simp [handle_frame, hmem]
  · intro fr rest h
    simp [run_frames, h]

/-- Witness for C9 at concrete inputs: an unknown channel, an update for
an unwatched wallet, and continuation past a malformed frame. -/
theorem ignored_frames_amended_witness :
    handle_frame ["0xabc"] initProc (Frame.parsed (some "pong") none) = some (initProc, []) ∧
    handle_frame ["0xabc"] initProc (Frame.parsed (some "userFills")
      (some (JData.dict (some "0xdead") false []))) = some (initProc, []) ∧
    run_frames ["0xabc"] initProc [Frame.malformed] = run_frames ["0xabc"] initProc [] := by
  have h := ignored_frames_amended ["0xabc"] initProc
  refine ⟨h.2.2.1 (some "pong") none (by decide) (by decide),
          h.2.2.2.2.2.1 (some "0xdead") false [] (by decide),
          h.2.2.2.2.2.2.1 Frame.malformed [] h.1⟩
